import Mathlib

/-!
Verification of the retrieval engine and conversation-flow state machine of the
Mistral-Chatbot repository, as a shallow embedding in Lean.

Python strings are modelled by `String` (identifiers, ids, prompts) or by
`List Char` (document texts that are sliced by the chunkers); Python dicts by
association lists with insert-or-overwrite update (`dictSet`), which matches
Python dict insertion-order semantics; numpy float arrays by lists of rationals
(exact values) except for `cosine_similarity`, whose square roots force real
numbers; a numpy division whose denominator is zero is modelled as `none`
(NaN/inf, a non-finite result).  Calls to the remote Mistral service are
modelled by explicit parameters (the service reply, an embedding oracle),
`none`/`Except.error` standing for a transport failure.
-/

namespace MistralChatbot

/-! ## Python dict as association list (insertion ordered) -/

def dictGet {α : Type} : List (String × α) → String → Option α
  | [], _ => none
  | (k, v) :: rest, key => if k = key then some v else dictGet rest key

def dictGetD {α : Type} (d : List (String × α)) (key : String) (dflt : α) : α :=
  (dictGet d key).getD dflt

/-- `d[key] = v` in Python: overwrite in place if present, else append. -/
def dictSet {α : Type} : List (String × α) → String → α → List (String × α)
  | [], key, v => [(key, v)]
  | (k, w) :: rest, key, v =>
      if k = key then (k, v) :: rest else (k, w) :: dictSet rest key v

theorem dictGet_dictSet_self {α : Type} (d : List (String × α)) (k : String) (v : α) :
    dictGet (dictSet d k v) k = some v := by
  induction d with
  | nil => simp [dictSet, dictGet]
  | cons p rest ih =>
      obtain ⟨k0, w⟩ := p
      by_cases h : k0 = k
      · simp [dictSet, h, dictGet]
      · simp [dictSet, h, dictGet, ih]

theorem dictGet_dictSet_ne {α : Type} (d : List (String × α)) (k k2 : String) (v : α)
    (h : k ≠ k2) : dictGet (dictSet d k v) k2 = dictGet d k2 := by
  induction d with
  | nil => simp [dictSet, dictGet, h]
  | cons p rest ih =>
      obtain ⟨k0, w⟩ := p
      by_cases h0 : k0 = k
      · subst h0
        simp [dictSet, dictGet, h]
      · simp [dictSet, h0, dictGet, ih]

/-! ## Conversation flow data model (src/conversation_flow.py)

`ConversationStage.__init__` (lines 13-21), `ConversationFlow` (49-64),
`ConversationState` (93-123).  The state's `current_stage_id` is a string,
`""` standing for Python `None`/empty (both falsy). -/

structure ConversationStage where
  stage_id : String
  name : String
  system_prompt : String
  user_prompt : Option String
  next_stages : List String
  completion_criteria : List (String × String)
  max_turns : Nat
deriving DecidableEq

structure ConversationFlow where
  flow_id : String
  name : String
  description : String
  initial_stage : String
  stages : List (String × ConversationStage)
deriving DecidableEq

/-- `ConversationFlow.get_stage`: `self.stages.get(stage_id)`. -/
def ConversationFlow.get_stage (flow : ConversationFlow) (stage_id : String) :
    Option ConversationStage :=
  dictGet flow.stages stage_id

structure ConversationState where
  flow_id : String
  current_stage_id : String
  completed_stages : List String
  stage_turns : List (String × Nat)
deriving DecidableEq

/-- `ConversationState.advance_stage` (lines 103-108): append the current stage id
to the history if truthy, move the cursor, reset the entered stage's counter. -/
def ConversationState.advance_stage (st : ConversationState) (new_stage_id : String) :
    ConversationState :=
  { st with
    completed_stages :=
      if st.current_stage_id ≠ "" then st.completed_stages ++ [st.current_stage_id]
      else st.completed_stages
    current_stage_id := new_stage_id
    stage_turns := dictSet st.stage_turns new_stage_id 0 }

/-- `ConversationState.increment_turns` (lines 110-115). -/
def ConversationState.increment_turns (st : ConversationState) : ConversationState :=
  { st with
    stage_turns :=
      match dictGet st.stage_turns st.current_stage_id with
      | some n => dictSet st.stage_turns st.current_stage_id (n + 1)
      | none => dictSet st.stage_turns st.current_stage_id 1 }

/-- Python `str.strip()`: drop whitespace from both ends. -/
def pyStrip (s : List Char) : List Char :=
  ((s.dropWhile Char.isWhitespace).reverse.dropWhile Char.isWhitespace).reverse

/-- Python `s.split(":", 1)[1]` when a colon is present: the text after the
first colon, `none` when there is no colon. -/
def afterFirstColon : List Char → Option (List Char)
  | [] => none
  | c :: t => if c = ':' then some t else afterFirstColon t

/-- `check_stage_completion` (lines 156-239).  The completion-service reply is a
parameter: `some raw` is the content string of a successful API call, `none` is
a transport failure or a missing client (both end in the `return False, None`
fallbacks).  Python `str.strip` is modelled by `String.trim`. -/
def check_stage_completion (stage : ConversationStage) (state : ConversationState)
    (reply : Option String) : Bool × Option String :=
  if stage.max_turns ≤ dictGetD state.stage_turns stage.stage_id 0 ∧
      stage.next_stages.length = 1 then
    (true, stage.next_stages.head?)
  else if stage.completion_criteria.isEmpty then
    (false, none)
  else
    match reply with
    | none => (false, none)
    | some raw =>
      let result := pyStrip raw.toList
      if "COMPLETE".toList.isPrefixOf result then
        match (afterFirstColon result).map (fun t => String.mk (pyStrip t)) with
        | some id =>
          if id ≠ "" ∧ id ∈ stage.next_stages then (true, some id)
          else if ¬ stage.next_stages.isEmpty then (true, stage.next_stages.head?)
          else (true, none)
        | none =>
          if ¬ stage.next_stages.isEmpty then (true, stage.next_stages.head?)
          else (true, none)
      else (false, none)

/-- Outcome of one `process_conversation_turn` call. `attrError` is the
uncontrolled Python `AttributeError` raised at line 277 when the advanced-to
stage does not exist (`current_stage.system_prompt` on `None`); `invalidStage`
is the signalled `return None, conversation_state` of lines 259-261. -/
inductive TurnOutcome where
  | noClient
  | invalidStage
  | attrError
  | ok (system_message : String)
deriving DecidableEq

/-- `process_conversation_turn` (lines 242-280).  `clientOk` models whether a
Mistral client is available; `reply` is passed through to the completion
check. -/
def process_conversation_turn (clientOk : Bool) (state : ConversationState)
    (flow : ConversationFlow) (reply : Option String) :
    TurnOutcome × ConversationState :=
  if clientOk = false then (TurnOutcome.noClient, state)
  else
    match flow.get_stage state.current_stage_id with
    | none => (TurnOutcome.invalidStage, state)
    | some current_stage =>
      let state1 := state.increment_turns
      match check_stage_completion current_stage state1 reply with
      | (is_complete, some nid) =>
        if is_complete ∧ nid ≠ "" then
          let state2 := state1.advance_stage nid
          match flow.get_stage nid with
          | none => (TurnOutcome.attrError, state2)
          | some new_stage => (TurnOutcome.ok new_stage.system_prompt, state2)
        else (TurnOutcome.ok current_stage.system_prompt, state1)
      | (_, none) => (TurnOutcome.ok current_stage.system_prompt, state1)

/-! ## Chunkers (src/index_functions.py 287-295, src/document_processor.py 108-148)

The Python loop `for i in range(0, len(text), step)` over a text is embedded as
a structurally recursive walk over the character list, dropping `step`
characters per iteration and carrying the absolute start offset `i`.  The
`fuel` argument only bounds the number of iterations; `windowLoopF_eq` below
shows that with `fuel = length` (the value every caller passes, sufficient
because a positive step makes at most `length` iterations) the loop equals the
arithmetic description by window start offsets.  A window is kept when its
length is at least `thresh` (`chunk_text` hard-codes 50, `hierarchical_chunking`
uses `chunk_size // 4`). -/

def windowLoopF (cs step thresh : ℕ) : ℕ → ℕ → List Char → List (ℕ × List Char)
  | _, _, [] => []
  | 0, _, _ :: _ => []
  | fuel + 1, i, c :: t =>
    let chunk := (c :: t).take cs
    let rest := windowLoopF cs step thresh fuel (i + step) ((c :: t).drop step)
    if chunk.length < thresh then rest else (i, chunk) :: rest

/-- The window start offsets `0, step, 2*step, ...` strictly below `stop`. -/
def stepIndices (stop step : ℕ) : List ℕ :=
  (List.range ((stop + step - 1) / step)).map (fun k => k * step)

/-- `chunk_text(text, chunk_size, overlap)` (index_functions.py 287-295).
`range(0, len(text), 0)` raises `ValueError` (modelled as `Except.error`);
a negative step makes the range empty, so the function silently returns `[]`. -/
def chunk_text (text : List Char) (chunk_size overlap : ℕ) :
    Except String (List (List Char)) :=
  if chunk_size = overlap then Except.error "range() arg 3 must not be zero"
  else if chunk_size < overlap then Except.ok []
  else Except.ok
    ((windowLoopF chunk_size (chunk_size - overlap) 50 text.length 0 text).map Prod.snd)

/-- Modelled from the spec: the §4.1 Chunker contract, which is not itself a
separate function in the source.  It drops a produced window shorter than
`chunk_size/4` (the source constant 50 differs) and rejects `overlap ≥
chunk_size` as a configuration error (the source does not). -/
def chunkTextSpec (text : List Char) (chunk_size overlap : ℕ) :
    Except String (List (List Char)) :=
  if chunk_size ≤ overlap then
    Except.error "configuration error: overlap must be smaller than chunk_size"
  else Except.ok
    ((windowLoopF chunk_size (chunk_size - overlap) (chunk_size / 4) text.length 0 text).map
      Prod.snd)

/-- One chunk record of `hierarchical_chunking`: level 0 records its position
among the kept level-0 chunks as `index`; level 1 records its start offset
within the parent as `index` and its parent's position as `parent_index`. -/
structure HChunk where
  text : List Char
  level : ℕ
  index : ℕ
  parent_index : Option ℕ
deriving DecidableEq

/-- `hierarchical_chunking(text, chunk_sizes, overlaps)` (document_processor.py
108-148), parametrised by the two sizes and overlaps.  The inner `range` is
only constructed (and can only raise) when at least one level-0 chunk exists. -/
def hierarchical_chunking (text : List Char) (cs0 cs1 ov0 ov1 : ℕ) :
    Except String (List HChunk) :=
  if text.isEmpty then Except.ok []
  else if cs0 = ov0 then Except.error "range() arg 3 must not be zero"
  else
    let level0 :=
      if cs0 < ov0 then []
      else (windowLoopF cs0 (cs0 - ov0) (cs0 / 4) text.length 0 text).map Prod.snd
    if level0.isEmpty then Except.ok []
    else if cs1 = ov1 then Except.error "range() arg 3 must not be zero"
    else Except.ok (level0.enum.flatMap (fun p =>
      { text := p.2, level := 0, index := p.1, parent_index := none } ::
      (if cs1 < ov1 then []
       else (windowLoopF cs1 (cs1 - ov1) (cs1 / 4) p.2.length 0 p.2).map
         (fun q => { text := q.2, level := 1, index := q.1, parent_index := some p.1 }))))

/-! ## Top-k selection of search_index (src/index_functions.py 205-214)

`np.argsort(similarities)` sorts ascending; numpy quicksort runs insertion
sort on short arrays, which keeps equal elements in original order, so the
argsort is modelled as a stable insertion sort of the `(row, similarity)`
pairs by similarity.  `search_index` then takes `[-top_k:]` and reverses
(`[::-1]`); Python `[-0:]` is the whole array, so `top_k = 0` yields every row
reversed. -/

def insertBy (keep : (ℕ × ℚ) → (ℕ × ℚ) → Bool) (x : ℕ × ℚ) :
    List (ℕ × ℚ) → List (ℕ × ℚ)
  | [] => [x]
  | y :: l => if keep y x then y :: insertBy keep x l else x :: y :: l

def sortFold (keep : (ℕ × ℚ) → (ℕ × ℚ) → Bool) (l : List (ℕ × ℚ)) :
    List (ℕ × ℚ) :=
  l.foldl (fun acc x => insertBy keep x acc) []

/-- Stable ascending comparison on similarity values: an element already in
place stays before a newly inserted one when its value is ≤ (ties keep
insertion order, numpy insertion-sort semantics). -/
def npKeep (y x : ℕ × ℚ) : Bool := decide (y.2 ≤ x.2)

/-- `np.argsort(similarities)` as row indices, ascending by similarity, stable. -/
def np_argsort (sims : List ℚ) : List ℕ :=
  (sortFold npKeep sims.enum).map Prod.fst

/-- The row indices `search_index` selects, in the order it consumes them:
`np.argsort(similarities)[-top_k:][::-1]`. -/
def search_index_top_indices (sims : List ℚ) (top_k : ℕ) : List ℕ :=
  if top_k = 0 then (np_argsort sims).reverse
  else ((np_argsort sims).reverse.take top_k)

/-- Modelled from the spec: §4.4 step 4, highest similarity first with the
LOWEST row index preferred on ties (stable descending selection). -/
def lowTieKeep (y x : ℕ × ℚ) : Bool :=
  decide (x.2 < y.2 ∨ (x.2 = y.2 ∧ y.1 < x.1))

def specTopIndicesLowTie (sims : List ℚ) (top_k : ℕ) : List ℕ :=
  ((sortFold lowTieKeep sims.enum).map Prod.fst).take top_k

/-- Highest similarity first with the HIGHEST row index preferred on ties:
what the composition argsort-ascending + tail + reverse actually produces. -/
def highTieKeep (y x : ℕ × ℚ) : Bool :=
  decide (x.2 < y.2 ∨ (x.2 = y.2 ∧ x.1 < y.1))

def specTopIndicesHighTie (sims : List ℚ) (top_k : ℕ) : List ℕ :=
  ((sortFold highTieKeep sims.enum).map Prod.fst).take top_k

/-! ## Cosine similarity (src/index_functions.py 272-285)

Real numbers model numpy floats; a numpy division with zero denominator is not
a finite similarity (0/0 is NaN, x/0 is ±inf) and is modelled as `none`.  A
zero-norm query poisons every row, since `query_embedding / 0` is a NaN/inf
vector whose dot products are all NaN. -/

noncomputable def dotList (v w : List ℝ) : ℝ := (List.zipWith (fun a b => a * b) v w).sum

noncomputable def norm2 (v : List ℝ) : ℝ := Real.sqrt (dotList v v)

noncomputable def npDiv (x y : ℝ) : Option ℝ := if y = 0 then none else some (x / y)

/-- `cosine_similarity(query_embedding, document_embeddings)`: normalise the
query by its norm, dot against each stored row, divide by each row's norm. -/
noncomputable def cosine_similarity (q : List ℝ) (docs : List (List ℝ)) :
    List (Option ℝ) :=
  if norm2 q = 0 then docs.map (fun _ => none)
  else docs.map (fun d => npDiv (dotList d (q.map (fun x => x / norm2 q))) (norm2 d))

/-! ## create_index (src/index_functions.py 23-180)

The filesystem walk, the document-processing batch and the embedding API are
externalised: `files` is the list of per-file results (for the advanced path,
the `doc_info` records of `process_documents_batch`; for the traditional path,
the per-file extraction results, `text = []` when nothing was extracted),
and `embed` is the embedding endpoint, applied batch by batch.  The function
returns the new resident index together with a flag telling whether
`save_index` was reached (the persisted index overwritten). -/

/-- A processed document (`doc_info` of document_processor.process_document,
restricted to the fields create_index reads). -/
structure PFile where
  path : String
  filename : String
  text : List Char
  summary : List Char
  keywords : List String
  chunks : List HChunk
  processed : Bool
deriving DecidableEq

/-- One per-chunk metadata record (index_functions.py 68-74, 79-82, 109-113). -/
structure ChunkMeta where
  path : String
  filename : String
  chunk_level : Option ℕ
  chunk_index : Option ℕ
  parent_index : Option ℕ
deriving DecidableEq

instance : Inhabited ChunkMeta := ⟨⟨"", "", none, none, none⟩⟩

/-- The resident in-memory `index` dict (index_functions.py 13-21). -/
structure IndexState where
  documents : List (List Char)
  embeddings : Option (List (List ℚ))
  id_to_path : List (ℕ × String)
  id_to_metadata : List (ℕ × ChunkMeta)
  summaries : List (String × List Char)
  keywords : List (String × List String)
  initialized : Bool
deriving DecidableEq

/-- Advanced-processing entries of one document (lines 59-82): one entry per
hierarchical chunk, or the whole text as fallback when there are no chunks.
Each entry is (document text, chunk id, metadata). -/
def docEntriesAdvanced (doc : PFile) : List (List Char × String × ChunkMeta) :=
  if ¬ doc.chunks.isEmpty then
    doc.chunks.enum.map (fun p =>
      (p.2.text, doc.path ++ ":" ++ toString p.1,
        { path := doc.path, filename := doc.filename, chunk_level := some p.2.level,
          chunk_index := some p.2.index, parent_index := p.2.parent_index }))
  else
    [(doc.text, doc.path,
      { path := doc.path, filename := doc.filename, chunk_level := none,
        chunk_index := none, parent_index := none })]

/-- The chunk list `chunk_text(text, chunk_size=500, overlap=100)` produces
(the step 400 is positive, so the call cannot raise). -/
def chunkList500 (text : List Char) : List (List Char) :=
  match chunk_text text 500 100 with
  | Except.ok l => l
  | Except.error _ => []

/-- Traditional-processing entries of one file (lines 99-113): skip a file
whose extracted text is falsy, else one entry per `chunk_text` chunk. -/
def docEntriesSimple (doc : PFile) : List (List Char × String × ChunkMeta) :=
  if doc.text.isEmpty then []
  else (chunkList500 doc.text).enum.map (fun p =>
    (p.2, doc.path ++ ":" ++ toString p.1,
      { path := doc.path, filename := doc.filename, chunk_level := none,
        chunk_index := some p.1, parent_index := none }))

/-- The documents the advanced path iterates: `process_documents_batch` keeps
only the files whose processing succeeded; the traditional path iterates every
file. -/
def procDocsOf (advanced : Bool) (files : List PFile) : List PFile :=
  if advanced then files.filter (fun f => f.processed) else files

def entriesOf (advanced : Bool) (files : List PFile) :
    List (List Char × String × ChunkMeta) :=
  (procDocsOf advanced files).flatMap
    (fun d => if advanced then docEntriesAdvanced d else docEntriesSimple d)

/-- The flattened `documents` list of create_index. -/
def documentsOf (advanced : Bool) (files : List PFile) : List (List Char) :=
  (entriesOf advanced files).map (fun e => e.1)

/-- Document-level summaries gathered on the advanced path (lines 84-86). -/
def summariesOf (docs : List PFile) : List (String × List Char) :=
  docs.foldl (fun acc doc =>
    if ¬ doc.summary.isEmpty then dictSet acc doc.path doc.summary else acc) []

/-- Document-level keywords gathered on the advanced path (lines 88-89). -/
def keywordsOf (docs : List PFile) : List (String × List String) :=
  docs.foldl (fun acc doc =>
    if ¬ doc.keywords.isEmpty then dictSet acc doc.path doc.keywords else acc) []

/-- Batches of 10 documents (lines 134-141); fuel-bounded like the chunk loop,
`fuel = length` suffices. -/
def toBatchesF : ℕ → List (List Char) → List (List (List Char))
  | _, [] => []
  | 0, _ :: _ => []
  | fuel + 1, c :: rest =>
    (c :: rest).take 10 :: toBatchesF fuel ((c :: rest).drop 10)

/-- Run the embedding endpoint over every batch, concatenating in order; any
failed batch aborts the whole build (the `except` at lines 176-180). -/
def embedBatches (embed : List (List Char) → Except Unit (List (List ℚ))) :
    List (List (List Char)) → Except Unit (List (List ℚ))
  | [] => Except.ok []
  | b :: bs =>
    match embed b with
    | Except.error e => Except.error e
    | Except.ok v =>
      match embedBatches embed bs with
      | Except.error e => Except.error e
      | Except.ok rest => Except.ok (v ++ rest)

/-- `create_index(directory_path, ...)`.  Returns the resident index after the
call and whether `save_index` overwrote the persisted index. -/
def create_index (dirExists advanced : Bool) (files : List PFile)
    (embed : List (List Char) → Except Unit (List (List ℚ)))
    (idx : IndexState) : IndexState × Bool :=
  if ¬ dirExists then (idx, false)
  else if files.isEmpty then (idx, false)
  else
    let entries := entriesOf advanced files
    let documents := entries.map (fun e => e.1)
    let file_paths := entries.map (fun e => e.2.1)
    let metadata := entries.foldl (fun acc e => dictSet acc e.2.1 e.2.2) []
    if documents.isEmpty then (idx, false)
    else
      match embedBatches embed (toBatchesF documents.length documents) with
      | Except.error _ => (idx, false)
      | Except.ok all_embeddings =>
        ({ documents := documents
           embeddings := some all_embeddings
           id_to_path := file_paths.enum
           id_to_metadata :=
             file_paths.enum.map (fun p => (p.1, (dictGet metadata p.2).getD default))
           summaries := if advanced then summariesOf (procDocsOf advanced files)
                        else idx.summaries
           keywords := if advanced then keywordsOf (procDocsOf advanced files)
                       else idx.keywords
           initialized := true }, true)

/-! ## Theorems about the conversation-flow engine -/

/-- Claim C3: when a stage's per-stage turn counter has reached `max_turns` and
the stage has exactly one next stage, `check_stage_completion` returns
`(true, that stage)` for every reply — the completion service is never
consulted; in particular a stage with `max_turns = 2` and one next stage
always transitions on the 2nd processed turn, whatever the completion
criteria say. -/
theorem check_stage_completion_turn_budget :
    (∀ (stage : ConversationStage) (state : ConversationState) (reply : Option String)
        (ns : String),
      stage.next_stages = [ns] →
      stage.max_turns ≤ dictGetD state.stage_turns stage.stage_id 0 →
      check_stage_completion stage state reply = (true, some ns))
    ∧ (∀ (flow : ConversationFlow) (state : ConversationState) (stage : ConversationStage)
        (reply : Option String) (ns : String),
      flow.get_stage state.current_stage_id = some stage →
      stage.stage_id = state.current_stage_id →
      stage.next_stages = [ns] → ns ≠ "" →
      stage.max_turns = 2 →
      dictGetD state.stage_turns state.current_stage_id 0 = 1 →
      ((process_conversation_turn true state flow reply).2).current_stage_id = ns) := by
  have part1 : ∀ (stage : ConversationStage) (state : ConversationState)
      (reply : Option String) (ns : String),
      stage.next_stages = [ns] →
      stage.max_turns ≤ dictGetD state.stage_turns stage.stage_id 0 →
      check_stage_completion stage state reply = (true, some ns) := by
    intro stage state reply ns hns hmax
    unfold check_stage_completion
    rw [hns]
    simp [hmax]
  refine ⟨part1, ?_⟩
  intro flow state stage reply ns hstage hid hns hne hmax hturn
  have hget : dictGet state.stage_turns state.current_stage_id = some 1 := by
    unfold dictGetD at hturn
    cases h : dictGet state.stage_turns state.current_stage_id with
    | none => rw [h] at hturn; simp at hturn
    | some n => rw [h] at hturn; simp at hturn; rw [hturn]
  have hcounter : dictGetD (state.increment_turns).stage_turns stage.stage_id 0 = 2 := by
    unfold ConversationState.increment_turns
    simp only [hget]
    rw [hid]
    unfold dictGetD
    rw [dictGet_dictSet_self]
    rfl
  have hchk : check_stage_completion stage state.increment_turns reply = (true, some ns) :=
    part1 stage state.increment_turns reply ns hns (by rw [hcounter, hmax])
  unfold process_conversation_turn
  simp only [hstage, hchk]
  simp only [Bool.true_eq_false, if_false]
  rw [if_pos ⟨trivial, hne⟩]
  cases hng : flow.get_stage ns with
  | none => simp [ConversationState.advance_stage]
  | some s2 => simp [ConversationState.advance_stage]

def wBudgetStage : ConversationStage :=
  { stage_id := "greeting", name := "Greeting", system_prompt := "greet",
    user_prompt := none, next_stages := ["problem_identification"],
    completion_criteria := [], max_turns := 2 }

def wBudgetFlow : ConversationFlow :=
  { flow_id := "customer_support", name := "Customer Support", description := "",
    initial_stage := "greeting",
    stages := [("greeting", wBudgetStage)] }

def wBudgetState : ConversationState :=
  { flow_id := "customer_support", current_stage_id := "greeting",
    completed_stages := [], stage_turns := [("greeting", 1)] }

theorem check_stage_completion_turn_budget_witness :
    check_stage_completion wBudgetStage
        { wBudgetState with stage_turns := [("greeting", 2)] } none
      = (true, some "problem_identification")
    ∧ ((process_conversation_turn true wBudgetState wBudgetFlow none).2).current_stage_id
      = "problem_identification" :=
  ⟨check_stage_completion_turn_budget.1 wBudgetStage
      { wBudgetState with stage_turns := [("greeting", 2)] } none
      "problem_identification" rfl (by decide),
    check_stage_completion_turn_budget.2 wBudgetFlow wBudgetState wBudgetStage none
      "problem_identification" rfl rfl rfl (by decide) rfl (by decide)⟩

/-- Claim C10: a stage with no completion criteria whose `next_stages` list
does not have exactly one entry is judged incomplete for every state (even one
whose counter exceeds `max_turns`) and every reply (the completion service is
irrelevant), so a processed turn never moves `current_stage_id` off such a
stage. -/
theorem no_exit_without_criteria :
    ∀ (stage : ConversationStage), stage.completion_criteria = [] →
      stage.next_stages.length ≠ 1 →
      (∀ (state : ConversationState) (reply : Option String),
        check_stage_completion stage state reply = (false, none))
      ∧ (∀ (flow : ConversationFlow) (state : ConversationState) (reply : Option String)
            (clientOk : Bool),
        flow.get_stage state.current_stage_id = some stage →
        ((process_conversation_turn clientOk state flow reply).2).current_stage_id
          = state.current_stage_id) := by
  intro stage hcrit hlen
  have part1 : ∀ (state : ConversationState) (reply : Option String),
      check_stage_completion stage state reply = (false, none) := by
    intro state reply
    unfold check_stage_completion
    rw [if_neg (by intro h; exact hlen h.2)]
    rw [if_pos (by rw [hcrit]; rfl)]
  refine ⟨part1, ?_⟩
  intro flow state reply clientOk hstage
  cases clientOk with
  | false => rfl
  | true =>
    unfold process_conversation_turn
    simp only [hstage, part1 state.increment_turns reply]
    simp only [Bool.true_eq_false, if_false]
    rfl

def wStuckStage : ConversationStage :=
  { stage_id := "closing", name := "Closing", system_prompt := "bye",
    user_prompt := none, next_stages := [], completion_criteria := [],
    max_turns := 2 }

def wStuckFlow : ConversationFlow :=
  { flow_id := "customer_support", name := "Customer Support", description := "",
    initial_stage := "closing", stages := [("closing", wStuckStage)] }

def wStuckState : ConversationState :=
  { flow_id := "customer_support", current_stage_id := "closing",
    completed_stages := [], stage_turns := [("closing", 99)] }

theorem no_exit_without_criteria_witness :
    check_stage_completion wStuckStage wStuckState (some "COMPLETE: anywhere")
      = (false, none)
    ∧ ((process_conversation_turn true wStuckState wStuckFlow
          (some "COMPLETE: anywhere")).2).current_stage_id = "closing" :=
  ⟨(no_exit_without_criteria wStuckStage rfl (by decide)).1 wStuckState
      (some "COMPLETE: anywhere"),
    (no_exit_without_criteria wStuckStage rfl (by decide)).2 wStuckFlow wStuckState
      (some "COMPLETE: anywhere") true rfl⟩

/-- Claim C4: on a stage with completion criteria, when the turn-budget
short-circuit does not apply, the completion-service reply is parsed so that a
COMPLETE verdict with a declared id transitions to that id; a COMPLETE verdict
with a missing, empty or undeclared id falls back to the first declared next
stage (`head?`, which is `none` exactly when `next_stages` is empty); any
non-COMPLETE reply and any transport failure yield `(false, none)`. -/
theorem check_stage_completion_reply_parsing :
    ∀ (stage : ConversationStage) (state : ConversationState),
      stage.completion_criteria ≠ [] →
      ¬ (stage.max_turns ≤ dictGetD state.stage_turns stage.stage_id 0 ∧
          stage.next_stages.length = 1) →
      (∀ (raw : String) (id : String),
        "COMPLETE".toList.isPrefixOf (pyStrip raw.toList) →
        (afterFirstColon (pyStrip raw.toList)).map (fun t => String.mk (pyStrip t))
          = some id →
        id ≠ "" → id ∈ stage.next_stages →
        check_stage_completion stage state (some raw) = (true, some id))
      ∧ (∀ raw : String,
        "COMPLETE".toList.isPrefixOf (pyStrip raw.toList) →
        (∀ id, (afterFirstColon (pyStrip raw.toList)).map (fun t => String.mk (pyStrip t))
            = some id →
          id = "" ∨ id ∉ stage.next_stages) →
        check_stage_completion stage state (some raw) = (true, stage.next_stages.head?))
      ∧ (∀ raw : String,
        ¬ "COMPLETE".toList.isPrefixOf (pyStrip raw.toList) →
        check_stage_completion stage state (some raw) = (false, none))
      ∧ check_stage_completion stage state none = (false, none) := by
  intro stage state hcrit hnosc
  have hcrit2 : stage.completion_criteria.isEmpty = false := by
    cases h : stage.completion_criteria with
    | nil => exact absurd h hcrit
    | cons a l => rfl
  refine ⟨?_, ?_, ?_, ?_⟩
  · intro raw id hpre hext hne hmem
    unfold check_stage_completion
    rw [if_neg hnosc, if_neg (by rw [hcrit2]; exact Bool.false_ne_true)]
    simp only [hpre, if_true, hext]
    rw [if_pos ⟨hne, hmem⟩]
  · intro raw hpre hbad
    unfold check_stage_completion
    rw [if_neg hnosc, if_neg (by rw [hcrit2]; exact Bool.false_ne_true)]
    simp only [hpre, if_true]
    cases hext : (afterFirstColon (pyStrip raw.toList)).map (fun t => String.mk (pyStrip t)) with
    | none =>
      by_cases hni : stage.next_stages.isEmpty
      · have he : stage.next_stages = [] := List.isEmpty_iff.mp hni
        simp [hni, he]
      · simp [hni]
    | some id =>
      have hcond : ¬ (id ≠ "" ∧ id ∈ stage.next_stages) := by
        intro h
        rcases hbad id hext with h1 | h1
        · exact h.1 h1
        · exact h1 h.2
      by_cases hni : stage.next_stages.isEmpty
      · have he : stage.next_stages = [] := List.isEmpty_iff.mp hni
        simp [hcond, hni, he]
      · simp [hcond, hni]
  · intro raw hnpre
    unfold check_stage_completion
    rw [if_neg hnosc, if_neg (by rw [hcrit2]; exact Bool.false_ne_true)]
    simp only [ite_eq_right_iff]
    intro h
    exact absurd h hnpre
  · unfold check_stage_completion
    rw [if_neg hnosc, if_neg (by rw [hcrit2]; exact Bool.false_ne_true)]

def wJudgeStage : ConversationStage :=
  { stage_id := "problem_identification", name := "Problem Identification",
    system_prompt := "ask", user_prompt := none,
    next_stages := ["solution_proposal", "escalation"],
    completion_criteria := [("problem_understanding", "details provided")],
    max_turns := 4 }

def wJudgeState : ConversationState :=
  { flow_id := "customer_support", current_stage_id := "problem_identification",
    completed_stages := [], stage_turns := [("problem_identification", 1)] }

theorem check_stage_completion_reply_parsing_witness :
    check_stage_completion wJudgeStage wJudgeState (some "COMPLETE: escalation")
      = (true, some "escalation")
    ∧ check_stage_completion wJudgeStage wJudgeState (some "COMPLETE: nowhere")
      = (true, some "solution_proposal")
    ∧ check_stage_completion wJudgeStage wJudgeState (some "INCOMPLETE")
      = (false, none)
    ∧ check_stage_completion wJudgeStage wJudgeState none = (false, none) :=
  ⟨(check_stage_completion_reply_parsing wJudgeStage wJudgeState (by decide)
      (by decide)).1 "COMPLETE: escalation" "escalation" (by decide) (by decide)
      (by decide) (by decide),
    (check_stage_completion_reply_parsing wJudgeStage wJudgeState (by decide)
      (by decide)).2.1 "COMPLETE: nowhere" (by decide)
      (by
        intro id hid
        have e : (afterFirstColon (pyStrip "COMPLETE: nowhere".toList)).map
            (fun t => String.mk (pyStrip t)) = some "nowhere" := by decide
        rw [e] at hid
        rw [(Option.some.inj hid).symm]
        exact Or.inr (by decide)),
    (check_stage_completion_reply_parsing wJudgeStage wJudgeState (by decide)
      (by decide)).2.2.1 "INCOMPLETE" (by decide),
    (check_stage_completion_reply_parsing wJudgeStage wJudgeState (by decide)
      (by decide)).2.2.2⟩

/-- Claim C5: whenever the completion check of a processed turn returns
complete with a (truthy) next stage id, the updated state appends the previous
current stage to `completed_stages`, moves `current_stage_id` to the next id,
and resets the entered stage's counter in `stage_turns` to 0 — with no
hypothesis excluding a stage already visited or already present in
`stage_turns`, so a revisit through a cycle restarts its counter at 0 while
`completed_stages` keeps the record of the earlier visit. -/
theorem process_turn_advance_updates :
    ∀ (flow : ConversationFlow) (state : ConversationState) (stage : ConversationStage)
      (reply : Option String) (nid : String),
      flow.get_stage state.current_stage_id = some stage →
      state.current_stage_id ≠ "" →
      check_stage_completion stage state.increment_turns reply = (true, some nid) →
      nid ≠ "" →
      ((process_conversation_turn true state flow reply).2).completed_stages
          = state.completed_stages ++ [state.current_stage_id]
      ∧ ((process_conversation_turn true state flow reply).2).current_stage_id = nid
      ∧ dictGet ((process_conversation_turn true state flow reply).2).stage_turns nid
          = some 0 := by
  intro flow state stage reply nid hstage hcur hchk hne
  have hres : (process_conversation_turn true state flow reply).2
      = (state.increment_turns).advance_stage nid := by
    unfold process_conversation_turn
    simp only [hstage, hchk]
    simp only [Bool.true_eq_false, if_false]
    rw [if_pos ⟨trivial, hne⟩]
    cases hng : flow.get_stage nid with
    | none => rfl
    | some s2 => rfl
  rw [hres]
  have hcur1 : (state.increment_turns).current_stage_id = state.current_stage_id := rfl
  have hcomp1 : (state.increment_turns).completed_stages = state.completed_stages := rfl
  refine ⟨?_, rfl, ?_⟩
  · unfold ConversationState.advance_stage
    rw [hcur1, hcomp1, if_pos hcur]
  · unfold ConversationState.advance_stage
    exact dictGet_dictSet_self _ _ _

def wCycleStageB : ConversationStage :=
  { stage_id := "resolution_confirmation", name := "Resolution Confirmation",
    system_prompt := "confirm", user_prompt := none,
    next_stages := ["problem_identification"], completion_criteria := [],
    max_turns := 1 }

def wCycleFlow : ConversationFlow :=
  { flow_id := "customer_support", name := "Customer Support", description := "",
    initial_stage := "problem_identification",
    stages := [("problem_identification", wJudgeStage),
               ("resolution_confirmation", wCycleStageB)] }

/-- A state that already visited `problem_identification` (its counter is 3 and
it sits in the history) and is about to loop back into it. -/
def wCycleState : ConversationState :=
  { flow_id := "customer_support", current_stage_id := "resolution_confirmation",
    completed_stages := ["problem_identification"],
    stage_turns := [("problem_identification", 3), ("resolution_confirmation", 0)] }

theorem process_turn_advance_updates_witness :
    ((process_conversation_turn true wCycleState wCycleFlow none).2).completed_stages
      = ["problem_identification", "resolution_confirmation"]
    ∧ ((process_conversation_turn true wCycleState wCycleFlow none).2).current_stage_id
      = "problem_identification"
    ∧ dictGet ((process_conversation_turn true wCycleState wCycleFlow none).2).stage_turns
        "problem_identification" = some 0 :=
  process_turn_advance_updates wCycleFlow wCycleState wCycleStageB none
    "problem_identification" rfl (by decide) (by decide) (by decide)

/-! ## Claim C8: dangling next_stages references -/

def ghostStage : ConversationStage :=
  { stage_id := "entry", name := "Entry", system_prompt := "hello",
    user_prompt := none, next_stages := ["ghost"], completion_criteria := [],
    max_turns := 1 }

/-- A flow whose only stage points at the nonexistent stage id "ghost":
constructing the flow value itself (what loading does) performs no
validation. -/
def ghostFlow : ConversationFlow :=
  { flow_id := "g", name := "Ghost", description := "",
    initial_stage := "entry", stages := [("entry", ghostStage)] }

def ghostState : ConversationState :=
  { flow_id := "g", current_stage_id := "entry", completed_stages := [],
    stage_turns := [] }

/-- Claim C8 counterexample: when the turn actually traverses the dangling
reference, `process_conversation_turn` ends in the uncontrolled
`AttributeError` of line 277 (`None.system_prompt`), not in the signalled
invalid-stage failure of lines 259-261 that the claim describes. -/
theorem dangling_next_stage_crash_counterexample :
    (process_conversation_turn true ghostState ghostFlow none).1 = TurnOutcome.attrError
    ∧ (process_conversation_turn true ghostState ghostFlow none).1
        ≠ TurnOutcome.invalidStage := by
  decide

/-- Claim C8 amended: the dangling reference is indeed accepted until
traversed, but the traversing turn itself raises an uncontrolled
`AttributeError` after the state has already advanced to the dangling id; the
signalled invalid-stage failure (`(None, state)` unchanged) only occurs on a
subsequent turn that starts from the dangling id. -/
theorem dangling_next_stage_behaviour :
    (∀ (flow : ConversationFlow) (state : ConversationState) (stage : ConversationStage)
        (reply : Option String) (nid : String),
      flow.get_stage state.current_stage_id = some stage →
      check_stage_completion stage state.increment_turns reply = (true, some nid) →
      nid ≠ "" →
      flow.get_stage nid = none →
      process_conversation_turn true state flow reply
        = (TurnOutcome.attrError, (state.increment_turns).advance_stage nid))
    ∧ (∀ (flow : ConversationFlow) (state : ConversationState) (reply : Option String),
      flow.get_stage state.current_stage_id = none →
      process_conversation_turn true state flow reply
        = (TurnOutcome.invalidStage, state)) := by
  constructor
  · intro flow state stage reply nid hstage hchk hne hghost
    unfold process_conversation_turn
    simp only [hstage, hchk]
    simp only [Bool.true_eq_false, if_false]
    rw [if_pos ⟨trivial, hne⟩, hghost]
  · intro flow state reply hstage
    unfold process_conversation_turn
    simp only [hstage]
    simp only [Bool.true_eq_false, if_false]

def ghostState2 : ConversationState :=
  { flow_id := "g", current_stage_id := "ghost",
    completed_stages := ["entry"], stage_turns := [("entry", 1), ("ghost", 0)] }

theorem dangling_next_stage_behaviour_witness :
    process_conversation_turn true ghostState ghostFlow none
      = (TurnOutcome.attrError, (ghostState.increment_turns).advance_stage "ghost")
    ∧ process_conversation_turn true ghostState2 ghostFlow none
      = (TurnOutcome.invalidStage, ghostState2) :=
  ⟨dangling_next_stage_behaviour.1 ghostFlow ghostState ghostStage none "ghost"
      rfl (by decide) (by decide) rfl,
    dangling_next_stage_behaviour.2 ghostFlow ghostState2 none rfl⟩

/-! ## The window loop equals the arithmetic window description -/

theorem count_succ (n step : ℕ) (hstep : 0 < step) (hn : 0 < n) :
    (n + step - 1) / step = (n - step + step - 1) / step + 1 := by
  rcases le_or_lt n step with h1 | h1
  · have e1 : n + step - 1 = (n - 1) + step := by omega
    rw [e1, Nat.add_div_right _ hstep]
    have e2 : (n - 1) / step = 0 := Nat.div_eq_of_lt (by omega)
    have e3 : n - step = 0 := by omega
    have e4 : (0 + step - 1) / step = 0 := Nat.div_eq_of_lt (by omega)
    rw [e2, e3, e4]
  · have e1 : n + step - 1 = (n - 1) + step := by omega
    have e2 : n - step + step - 1 = n - 1 := by omega
    rw [e1, e2, Nat.add_div_right _ hstep]

theorem count_le_self (n step : ℕ) (hstep : 0 < step) :
    (n + step - 1) / step ≤ n := by
  rcases Nat.eq_zero_or_pos n with rfl | hn
  · have : (0 + step - 1) / step = 0 := Nat.div_eq_of_lt (by omega)
    omega
  · have e1 : n + step - 1 = (n - 1) + step := by omega
    rw [e1, Nat.add_div_right _ hstep]
    have := Nat.div_le_self (n - 1) step
    omega

theorem stepIndices_zero (step : ℕ) (hstep : 0 < step) : stepIndices 0 step = [] := by
  unfold stepIndices
  have : (0 + step - 1) / step = 0 := Nat.div_eq_of_lt (by omega)
  rw [this]
  rfl

theorem stepIndices_cons (n step : ℕ) (hstep : 0 < step) (hn : 0 < n) :
    stepIndices n step = 0 :: (stepIndices (n - step) step).map (fun j => j + step) := by
  unfold stepIndices
  rw [count_succ n step hstep hn, List.range_succ_eq_map]
  simp [List.map_map, Function.comp_def, Nat.succ_mul]

/-- With a positive step and fuel at least the iteration count, the chunking
loop produces exactly the windows starting at `i + j` for `j` among the step
indices of the text length, each window kept iff its length reaches the
threshold. -/
theorem windowLoopF_eq (cs step thresh : ℕ) (hstep : 0 < step) :
    ∀ (fuel : ℕ) (t : List Char) (i : ℕ),
      (t.length + step - 1) / step ≤ fuel →
      windowLoopF cs step thresh fuel i t
        = ((stepIndices t.length step).map
            (fun j => (i + j, (t.drop j).take cs))).filter
            (fun q => thresh ≤ q.2.length) := by
  intro fuel
  induction fuel with
  | zero =>
    intro t i hfuel
    cases t with
    | nil => rw [show ([] : List Char).length = 0 from rfl, stepIndices_zero step hstep]; rfl
    | cons c t0 =>
      exfalso
      have hpos : 0 < ((c :: t0).length + step - 1) / step := by
        have e1 : (c :: t0).length + step - 1 = ((c :: t0).length - 1) + step := by
          simp only [List.length_cons]; omega
        rw [e1, Nat.add_div_right _ hstep]
        exact Nat.succ_pos _
      omega
  | succ fuel ih =>
    intro t i hfuel
    cases t with
    | nil => rw [show ([] : List Char).length = 0 from rfl, stepIndices_zero step hstep]; rfl
    | cons c t0 =>
      have hlen : 0 < (c :: t0).length := by simp
      have hcount := count_succ (c :: t0).length step hstep hlen
      have hfuel2 : (((c :: t0).drop step).length + step - 1) / step ≤ fuel := by
        rw [List.length_drop]
        omega
      have ihx := ih ((c :: t0).drop step) (i + step) hfuel2
      rw [stepIndices_cons _ step hstep hlen]
      simp only [windowLoopF]
      rw [ihx]
      have hmapeq : (stepIndices (((c :: t0).drop step).length) step).map
            (fun j => (i + step + j, (((c :: t0).drop step).drop j).take cs))
          = ((stepIndices ((c :: t0).length - step) step).map (fun j => j + step)).map
            (fun j => (i + j, ((c :: t0).drop j).take cs)) := by
        rw [List.length_drop, List.map_map]
        apply List.map_congr_left
        intro j hj
        simp only [Function.comp_apply, List.drop_drop, Prod.mk.injEq]
        constructor
        · omega
        · rw [Nat.add_comm step j]
      rw [hmapeq]
      simp only [List.map_cons, List.filter_cons, Nat.add_zero, List.drop_zero]
      by_cases hth : thresh ≤ ((c :: t0).take cs).length
      · rw [if_neg (by omega), if_pos (by simpa using hth)]
      · rw [if_pos (by omega), if_neg (by simpa using hth)]

theorem map_snd_filter_window (thresh : ℕ) (f : ℕ → List Char) (i : ℕ) :
    ∀ l : List ℕ,
      ((l.map (fun j => (i + j, f j))).filter (fun q => thresh ≤ q.2.length)).map Prod.snd
        = (l.map f).filter (fun c => thresh ≤ c.length) := by
  intro l
  induction l with
  | nil => rfl
  | cons a l ih =>
    by_cases h : thresh ≤ (f a).length
    · simp [List.filter_cons, h, ih]
    · simp [List.filter_cons, h, ih]

theorem flatMap_congr_mem {α β : Type} :
    ∀ (l : List α) (f g : α → List β), (∀ a ∈ l, f a = g a) →
      l.flatMap f = l.flatMap g := by
  intro l f g h
  induction l with
  | nil => rfl
  | cons a t ih =>
    simp only [List.flatMap_cons]
    rw [h a (by simp), ih (fun x hx => h x (by simp [hx]))]

/-- Claim C6 counterexample: a 60-character text with the default
`chunk_size=500, overlap=100` produces one 60-character trailing window; the
code keeps it (threshold is the constant 50), while the specified
`chunk_size/4 = 125` threshold would drop it. -/
theorem chunk_text_threshold_counterexample :
    chunk_text (List.replicate 60 'a') 500 100
      = Except.ok [List.replicate 60 'a']
    ∧ chunkTextSpec (List.replicate 60 'a') 500 100 = Except.ok []
    ∧ chunk_text (List.replicate 60 'a') 500 100
        ≠ chunkTextSpec (List.replicate 60 'a') 500 100 := by
  refine ⟨rfl, rfl, ?_⟩
  intro h
  rw [show chunk_text (List.replicate 60 'a') 500 100
        = Except.ok [List.replicate 60 'a'] from rfl,
      show chunkTextSpec (List.replicate 60 'a') 500 100 = Except.ok [] from rfl] at h
  simp at h

/-- Claim C6 amended: for `0 ≤ overlap < chunk_size` the chunker emits the
windows `text[i : i+chunk_size]` for `i = 0, step, 2·step, ...` with
`step = chunk_size - overlap`, but `chunk_text` keeps a window iff its length
is at least the constant 50; the `chunk_size/4` threshold of the spec is the
one used by `hierarchical_chunking` (per level, with integer division), not by
`chunk_text`. -/
theorem chunk_windows_and_threshold :
    (∀ (text : List Char) (cs ov : ℕ), ov < cs →
      chunk_text text cs ov
        = Except.ok (((stepIndices text.length (cs - ov)).map
            (fun i => (text.drop i).take cs)).filter (fun c => 50 ≤ c.length)))
    ∧ (∀ (text : List Char) (cs0 cs1 ov0 ov1 : ℕ), ov0 < cs0 → ov1 < cs1 →
      hierarchical_chunking text cs0 cs1 ov0 ov1
        = Except.ok ((((stepIndices text.length (cs0 - ov0)).map
              (fun i => (text.drop i).take cs0)).filter
              (fun c => cs0 / 4 ≤ c.length)).enum.flatMap (fun p =>
            { text := p.2, level := 0, index := p.1, parent_index := none } ::
            (((stepIndices p.2.length (cs1 - ov1)).map
                (fun j => (j, (p.2.drop j).take cs1))).filter
                (fun q => cs1 / 4 ≤ q.2.length)).map
              (fun q => { text := q.2, level := 1, index := q.1,
                          parent_index := some p.1 })))) := by
  have hwin : ∀ (text : List Char) (cs ov thresh : ℕ), ov < cs →
      (windowLoopF cs (cs - ov) thresh text.length 0 text).map Prod.snd
        = ((stepIndices text.length (cs - ov)).map
            (fun i => (text.drop i).take cs)).filter (fun c => thresh ≤ c.length) := by
    intro text cs ov thresh h
    rw [windowLoopF_eq cs (cs - ov) thresh (by omega) text.length text 0
      (count_le_self text.length (cs - ov) (by omega))]
    exact map_snd_filter_window thresh _ 0 _
  constructor
  · intro text cs ov h
    unfold chunk_text
    rw [if_neg (by omega), if_neg (by omega)]
    rw [hwin text cs ov 50 h]
  · intro text cs0 cs1 ov0 ov1 h0 h1
    unfold hierarchical_chunking
    by_cases ht : text.isEmpty
    · rw [if_pos ht]
      have he : text = [] := List.isEmpty_iff.mp ht
      subst he
      rw [show ([] : List Char).length = 0 from rfl, stepIndices_zero _ (by omega)]
      rfl
    · rw [if_neg ht, if_neg (by omega : ¬ cs0 = ov0)]
      simp only [if_neg (show ¬ cs0 < ov0 by omega)]
      rw [hwin text cs0 ov0 (cs0 / 4) h0]
      by_cases hL0e : (((stepIndices text.length (cs0 - ov0)).map
          (fun i => (text.drop i).take cs0)).filter (fun c => cs0 / 4 ≤ c.length)).isEmpty
      · rw [if_pos hL0e]
        rw [List.isEmpty_iff.mp hL0e]
        rfl
      · rw [if_neg hL0e, if_neg (by omega : ¬ cs1 = ov1)]
        congr 1
        apply flatMap_congr_mem
        intro p hp
        rw [if_neg (by omega : ¬ cs1 < ov1)]
        congr 1
        rw [windowLoopF_eq cs1 (cs1 - ov1) (cs1 / 4) (by omega) p.2.length p.2 0
          (count_le_self p.2.length (cs1 - ov1) (by omega))]
        have hz : (stepIndices p.2.length (cs1 - ov1)).map
              (fun j => (0 + j, (p.2.drop j).take cs1))
            = (stepIndices p.2.length (cs1 - ov1)).map
              (fun j => (j, (p.2.drop j).take cs1)) := by
          apply List.map_congr_left
          intro j hj
          simp
        rw [hz]

theorem chunk_windows_and_threshold_witness :
    (chunk_text (List.replicate 60 'a') 300 100
      = Except.ok (((stepIndices (List.replicate 60 'a').length (300 - 100)).map
          (fun i => ((List.replicate 60 'a').drop i).take 300)).filter
          (fun c => 50 ≤ c.length)))
    ∧ (hierarchical_chunking (List.replicate 10 'b') 8 4 2 1
      = Except.ok ((((stepIndices (List.replicate 10 'b').length (8 - 2)).map
            (fun i => ((List.replicate 10 'b').drop i).take 8)).filter
            (fun c => 8 / 4 ≤ c.length)).enum.flatMap (fun p =>
          { text := p.2, level := 0, index := p.1, parent_index := none } ::
          (((stepIndices p.2.length (4 - 1)).map
              (fun j => (j, (p.2.drop j).take 4))).filter
              (fun q => 4 / 4 ≤ q.2.length)).map
            (fun q => { text := q.2, level := 1, index := q.1,
                        parent_index := some p.1 })))) :=
  ⟨chunk_windows_and_threshold.1 (List.replicate 60 'a') 300 100 (by decide),
    chunk_windows_and_threshold.2 (List.replicate 10 'b') 8 4 2 1 (by decide) (by decide)⟩

/-- Claim C7 counterexample: with `overlap > chunk_size` (negative step) the
Python range is empty, so `chunk_text` silently returns an empty chunk list on
a nonempty text instead of rejecting the configuration (which the spec-modelled
contract does). -/
theorem chunk_text_bad_overlap_counterexample :
    chunk_text ['h', 'e', 'l', 'l', 'o'] 3 5 = Except.ok []
    ∧ chunkTextSpec ['h', 'e', 'l', 'l', 'o'] 3 5
        = Except.error "configuration error: overlap must be smaller than chunk_size" :=
  ⟨rfl, rfl⟩

/-- Claim C7 amended: `chunk_text` never loops forever on `overlap ≥
chunk_size` (it is a total function), but it does not reject the
configuration either: `overlap > chunk_size` silently yields `Except.ok []`
(empty range), while `overlap = chunk_size` raises the unrelated `ValueError`
of `range` (zero step). -/
theorem chunk_text_bad_overlap_behaviour :
    ∀ (text : List Char) (cs ov : ℕ),
      (cs < ov → chunk_text text cs ov = Except.ok [])
      ∧ (cs = ov → chunk_text text cs ov
          = Except.error "range() arg 3 must not be zero") := by
  intro text cs ov
  constructor
  · intro h
    unfold chunk_text
    rw [if_neg (by omega), if_pos h]
  · intro h
    unfold chunk_text
    rw [if_pos h]

theorem chunk_text_bad_overlap_behaviour_witness :
    chunk_text ['w', 'o', 'r', 'l', 'd'] 3 5 = Except.ok []
    ∧ chunk_text ['w', 'o', 'r', 'l', 'd'] 5 5
        = Except.error "range() arg 3 must not be zero" :=
  ⟨(chunk_text_bad_overlap_behaviour ['w', 'o', 'r', 'l', 'd'] 3 5).1 (by decide),
    (chunk_text_bad_overlap_behaviour ['w', 'o', 'r', 'l', 'd'] 5 5).2 rfl⟩

/-- Claim C9: with zero files, or with files from which no document chunk is
extracted, `create_index` returns early: the resident index is returned
unchanged in every field and `save_index` is never reached, so the persisted
index is not overwritten.  (The same holds when the directory is missing, so
the statement is quantified over `dirExists` as well.) -/
theorem create_index_noop_on_empty :
    ∀ (dirExists advanced : Bool) (files : List PFile)
      (embed : List (List Char) → Except Unit (List (List ℚ))) (idx : IndexState),
      (files = [] → create_index dirExists advanced files embed idx = (idx, false))
      ∧ (documentsOf advanced files = [] →
          create_index dirExists advanced files embed idx = (idx, false)) := by
  intro dirExists advanced files embed idx
  constructor
  · intro h
    subst h
    unfold create_index
    cases dirExists with
    | false => rfl
    | true => rfl
  · intro h
    unfold create_index
    cases dirExists with
    | false => rfl
    | true =>
      cases hf : files.isEmpty with
      | true => simp [hf]
      | false =>
        have hdoc : (entriesOf advanced files).map (fun e => e.1) = [] := h
        simp only [hf, Bool.not_true, Bool.false_eq_true, if_false, Bool.not_false,
          if_true, hdoc]
        rfl

def wOldMeta : ChunkMeta :=
  { path := "old.txt", filename := "old.txt", chunk_level := none,
    chunk_index := some 0, parent_index := none }

def wIdx : IndexState :=
  { documents := [['d', 'o', 'c']],
    embeddings := some [[1, 2]],
    id_to_path := [(0, "old.txt:0")],
    id_to_metadata := [(0, wOldMeta)],
    summaries := [("old.txt", ['s'])],
    keywords := [("old.txt", ["k"])],
    initialized := true }

/-- A file whose extracted text is only 30 characters: every window produced
by `chunk_text(·, 500, 100)` is shorter than 50 and dropped, so the file
yields zero documents. -/
def wShortFile : PFile :=
  { path := "tiny.txt", filename := "tiny.txt", text := List.replicate 30 't',
    summary := [], keywords := [], chunks := [], processed := false }

theorem create_index_noop_on_empty_witness :
    create_index true true [] (fun _ => Except.ok []) wIdx = (wIdx, false)
    ∧ create_index true false [wShortFile] (fun _ => Except.ok []) wIdx
        = (wIdx, false) :=
  ⟨(create_index_noop_on_empty true true [] (fun _ => Except.ok []) wIdx).1 rfl,
    (create_index_noop_on_empty true false [wShortFile] (fun _ => Except.ok []) wIdx).2
      (by decide)⟩

/-! ## Sorting lemmas for the top-k selection -/

/-- Strict ascending order on (row, similarity) pairs: by similarity, ties by
row index — the order the stable ascending argsort realises on the enumerated
rows. -/
def ascStrict (a b : ℕ × ℚ) : Prop := a.2 < b.2 ∨ (a.2 = b.2 ∧ a.1 < b.1)

/-- Weak descending order: by similarity descending, ties by row index
descending. -/
def descW (a b : ℕ × ℚ) : Prop := b.2 < a.2 ∨ (b.2 = a.2 ∧ b.1 ≤ a.1)

theorem ascStrict_trans : ∀ a b c, ascStrict a b → ascStrict b c → ascStrict a c := by
  intro a b c h1 h2
  rcases h1 with h1 | ⟨e1, i1⟩ <;> rcases h2 with h2 | ⟨e2, i2⟩
  · exact Or.inl (lt_trans h1 h2)
  · exact Or.inl (by rw [← e2]; exact h1)
  · exact Or.inl (by rw [e1]; exact h2)
  · exact Or.inr ⟨e1.trans e2, Nat.lt_trans i1 i2⟩

theorem descW_trans : ∀ a b c, descW a b → descW b c → descW a c := by
  intro a b c h1 h2
  rcases h1 with h1 | ⟨e1, i1⟩ <;> rcases h2 with h2 | ⟨e2, i2⟩
  · exact Or.inl (lt_trans h2 h1)
  · exact Or.inl (by rw [e2]; exact h1)
  · exact Or.inl (by rw [← e1]; exact h2)
  · exact Or.inr ⟨e2.trans e1, Nat.le_trans i2 i1⟩

theorem descW_antisymm : ∀ a b, descW a b → descW b a → a = b := by
  intro a b h1 h2
  rcases h1 with h1 | ⟨e1, i1⟩ <;> rcases h2 with h2 | ⟨e2, i2⟩
  · exact absurd h2 (lt_asymm h1)
  · exact absurd h1 (by rw [e2]; exact lt_irrefl _)
  · exact absurd h2 (by rw [e1]; exact lt_irrefl _)
  · have hv : a.2 = b.2 := e2
    have hi : a.1 = b.1 := Nat.le_antisymm i2 i1
    obtain ⟨a1, a2⟩ := a
    obtain ⟨b1, b2⟩ := b
    simp only at hv hi
    rw [hv, hi]

theorem insertBy_perm (keep : (ℕ × ℚ) → (ℕ × ℚ) → Bool) (x : ℕ × ℚ) :
    ∀ l, (insertBy keep x l).Perm (x :: l) := by
  intro l
  induction l with
  | nil => exact List.Perm.refl _
  | cons y t ih =>
    by_cases h : keep y x
    · simp only [insertBy, h, if_true]
      exact (ih.cons y).trans (List.Perm.swap x y t)
    · simp only [insertBy, h, if_false]
      exact List.Perm.refl _

theorem sortFoldAux_perm (keep : (ℕ × ℚ) → (ℕ × ℚ) → Bool) :
    ∀ (l acc : List (ℕ × ℚ)),
      (l.foldl (fun acc x => insertBy keep x acc) acc).Perm (acc ++ l) := by
  intro l
  induction l with
  | nil => intro acc; simp
  | cons x t ih =>
    intro acc
    simp only [List.foldl_cons]
    have h1 := ih (insertBy keep x acc)
    have h2 : (insertBy keep x acc ++ t).Perm ((x :: acc) ++ t) :=
      (insertBy_perm keep x acc).append_right t
    have h4 : (x :: (acc ++ t)).Perm (acc ++ x :: t) := List.perm_middle.symm
    exact h1.trans (h2.trans h4)

theorem sortFold_perm (keep : (ℕ × ℚ) → (ℕ × ℚ) → Bool) (l : List (ℕ × ℚ)) :
    (sortFold keep l).Perm l :=
  sortFoldAux_perm keep l []

theorem insertBy_pairwise {R : (ℕ × ℚ) → (ℕ × ℚ) → Prop}
    (keep : (ℕ × ℚ) → (ℕ × ℚ) → Bool) (x : ℕ × ℚ)
    (htrans : ∀ a b c, R a b → R b c → R a c) :
    ∀ l, l.Pairwise R →
      (∀ y ∈ l, keep y x = true → R y x) →
      (∀ y ∈ l, keep y x = false → R x y) →
      (insertBy keep x l).Pairwise R := by
  intro l
  induction l with
  | nil =>
    intro _ _ _
    simp [insertBy]
  | cons y t ih =>
    intro hp h1 h2
    by_cases hk : keep y x
    · simp only [insertBy, hk, if_true]
      refine List.pairwise_cons.mpr ⟨?_, ?_⟩
      · intro z hz
        rcases List.mem_cons.mp ((insertBy_perm keep x t).mem_iff.mp hz) with rfl | hz1
        · exact h1 y (List.mem_cons_self y t) hk
        · exact (List.pairwise_cons.mp hp).1 z hz1
      · exact ih (List.pairwise_cons.mp hp).2
          (fun z hz hkz => h1 z (List.mem_cons_of_mem y hz) hkz)
          (fun z hz hkz => h2 z (List.mem_cons_of_mem y hz) hkz)
    · simp only [insertBy, hk, if_false]
      have hkf : keep y x = false := by
        revert hk
        cases keep y x <;> simp
      have hxy : R x y := h2 y (List.mem_cons_self y t) hkf
      refine List.pairwise_cons.mpr ⟨?_, hp⟩
      intro z hz
      rcases List.mem_cons.mp hz with rfl | hz1
      · exact hxy
      · exact htrans x y z hxy ((List.pairwise_cons.mp hp).1 z hz1)

theorem mem_enumFrom_fst_le (l : List ℚ) :
    ∀ (n : ℕ) (p : ℕ × ℚ), p ∈ List.enumFrom n l → n ≤ p.1 := by
  induction l with
  | nil => intro n p hp; simp [List.enumFrom] at hp
  | cons x t ih =>
    intro n p hp
    rcases List.mem_cons.mp hp with rfl | hp1
    · exact Nat.le_refl n
    · exact Nat.le_trans (Nat.le_succ n) (ih (n + 1) p hp1)

theorem enumFrom_pairwise_fst (l : List ℚ) :
    ∀ n : ℕ, (List.enumFrom n l).Pairwise (fun a b => a.1 < b.1) := by
  induction l with
  | nil => intro n; simp [List.enumFrom]
  | cons x t ih =>
    intro n
    refine List.pairwise_cons.mpr ⟨?_, ih (n + 1)⟩
    intro p hp
    exact Nat.lt_of_lt_of_le (Nat.lt_succ_self n) (mem_enumFrom_fst_le t (n + 1) p hp)

theorem enum_pairwise_fst (l : List ℚ) :
    l.enum.Pairwise (fun a b => a.1 < b.1) :=
  enumFrom_pairwise_fst l 0

/-- The stable ascending insertion argsort is sorted strictly by (similarity,
row index), provided the rows arrive with strictly increasing indices. -/
theorem npSort_pairwise :
    ∀ (l acc : List (ℕ × ℚ)),
      acc.Pairwise ascStrict →
      (∀ p ∈ acc, ∀ q ∈ l, p.1 < q.1) →
      l.Pairwise (fun a b => a.1 < b.1) →
      (l.foldl (fun acc x => insertBy npKeep x acc) acc).Pairwise ascStrict := by
  intro l
  induction l with
  | nil => intro acc h _ _; exact h
  | cons x t ih =>
    intro acc hacc hidx hl
    simp only [List.foldl_cons]
    apply ih
    · refine insertBy_pairwise npKeep x ascStrict_trans acc hacc ?_ ?_
      · intro y hy hk
        have hyx : y.1 < x.1 := hidx y hy x (List.mem_cons_self x t)
        have hle : y.2 ≤ x.2 := by
          have := hk
          simp only [npKeep, decide_eq_true_eq] at this
          exact this
        rcases lt_or_eq_of_le hle with h | h
        · exact Or.inl h
        · exact Or.inr ⟨h, hyx⟩
      · intro y hy hk
        have hgt : ¬ y.2 ≤ x.2 := by
          have := hk
          simp only [npKeep, decide_eq_false_iff_not] at this
          exact this
        exact Or.inl (not_le.mp hgt)
    · intro p hp q hq
      rcases List.mem_cons.mp ((insertBy_perm npKeep x acc).mem_iff.mp hp) with rfl | h
      · exact (List.pairwise_cons.mp hl).1 q hq
      · exact hidx p h q (List.mem_cons_of_mem x hq)
    · exact (List.pairwise_cons.mp hl).2

/-- The descending tie-by-highest-index insertion sort is sorted by `descW`
with no side conditions (its comparison already separates equal-similarity
pairs by index). -/
theorem highSort_pairwise :
    ∀ (l acc : List (ℕ × ℚ)), acc.Pairwise descW →
      (l.foldl (fun acc x => insertBy highTieKeep x acc) acc).Pairwise descW := by
  intro l
  induction l with
  | nil => intro acc h; exact h
  | cons x t ih =>
    intro acc hacc
    simp only [List.foldl_cons]
    apply ih
    refine insertBy_pairwise highTieKeep x descW_trans acc hacc ?_ ?_
    · intro y hy hk
      have h := hk
      simp only [highTieKeep, decide_eq_true_eq] at h
      rcases h with h | ⟨e, i⟩
      · exact Or.inl h
      · exact Or.inr ⟨e, Nat.le_of_lt i⟩
    · intro y hy hk
      have h := hk
      simp only [highTieKeep, decide_eq_false_iff_not] at h
      push_neg at h
      rcases lt_or_eq_of_le h.1 with hlt | heq
      · exact Or.inl hlt
      · exact Or.inr ⟨heq, h.2 heq.symm⟩

/-- Reversing the stable ascending argsort gives exactly the descending sort
whose ties prefer the higher row index. -/
theorem np_reverse_eq_highTie (sims : List ℚ) :
    (sortFold npKeep sims.enum).reverse = sortFold highTieKeep sims.enum := by
  have hperm : ((sortFold npKeep sims.enum).reverse).Perm
      (sortFold highTieKeep sims.enum) :=
    ((sortFold npKeep sims.enum).reverse_perm.trans
      (sortFold_perm npKeep sims.enum)).trans
      (sortFold_perm highTieKeep sims.enum).symm
  have hs1 : ((sortFold npKeep sims.enum).reverse).Pairwise descW := by
    have h1 : (sortFold npKeep sims.enum).Pairwise ascStrict :=
      npSort_pairwise sims.enum [] (by simp) (by simp) (enum_pairwise_fst sims)
    refine List.pairwise_reverse.mpr (h1.imp ?_)
    intro a b hab
    rcases hab with h | ⟨e, i⟩
    · exact Or.inl h
    · exact Or.inr ⟨e, Nat.le_of_lt i⟩
  have hs2 : (sortFold highTieKeep sims.enum).Pairwise descW :=
    highSort_pairwise sims.enum [] (by simp)
  haveI : IsAntisymm (ℕ × ℚ) descW := ⟨descW_antisymm⟩
  exact List.eq_of_perm_of_sorted hperm hs1 hs2

/-- Claim C1 counterexample: two rows with equal similarity and `top_k = 1`.
`search_index` (argsort ascending, tail, reverse) selects row 1, while the
claimed stable lowest-row-index tie-break selects row 0. -/
theorem search_tie_break_counterexample :
    search_index_top_indices [1, 1] 1 = [1]
    ∧ specTopIndicesLowTie [1, 1] 1 = [0]
    ∧ search_index_top_indices [1, 1] 1 ≠ specTopIndicesLowTie [1, 1] 1 := by
  decide

/-- Claim C1 amended: `search_index` selects and orders the `top_k` rows by
descending similarity, but ties are broken by the HIGHEST row index first
(reverse insertion order), the consequence of ascending argsort + `[-k:]` +
`[::-1]`; stated for `top_k ≥ 1` (`top_k = 0` degenerates to all rows since
Python `[-0:]` is the whole array). -/
theorem search_tie_break_highest_index :
    ∀ (sims : List ℚ) (top_k : ℕ), 0 < top_k →
      search_index_top_indices sims top_k = specTopIndicesHighTie sims top_k := by
  intro sims k hk
  unfold search_index_top_indices specTopIndicesHighTie np_argsort
  rw [if_neg (by omega)]
  rw [← List.map_reverse, ← List.map_take, ← List.map_take]
  rw [np_reverse_eq_highTie]

theorem search_tie_break_highest_index_witness :
    search_index_top_indices [1, 1, 2] 2 = specTopIndicesHighTie [1, 1, 2] 2 :=
  search_tie_break_highest_index [1, 1, 2] 2 (by decide)

/-! ## Cosine similarity lemmas -/

theorem dotList_self_nonneg : ∀ v : List ℝ, 0 ≤ dotList v v := by
  intro v
  induction v with
  | nil => simp [dotList]
  | cons x t ih =>
    have h : dotList (x :: t) (x :: t) = x * x + dotList t t := by
      simp [dotList]
    rw [h]
    exact add_nonneg (mul_self_nonneg x) ih

theorem dotList_map_div : ∀ (a b : List ℝ) (c : ℝ),
    dotList a (b.map (fun x => x / c)) = dotList a b / c := by
  intro a
  induction a with
  | nil => intro b c; simp [dotList]
  | cons x t ih =>
    intro b c
    cases b with
    | nil => simp [dotList]
    | cons y s =>
      have h1 : dotList (x :: t) ((y :: s).map (fun x => x / c))
          = x * (y / c) + dotList t (s.map (fun x => x / c)) := by
        simp [dotList]
      have h2 : dotList (x :: t) (y :: s) = x * y + dotList t s := by
        simp [dotList]
      rw [h1, h2, ih s c]
      ring

/-- Claim C2 counterexample: a stored zero vector.  `np.dot` gives 0 and the
zero norm makes the division 0/0 = NaN (`none`), not the similarity 0 the
claim states. -/
theorem cosine_zero_norm_counterexample :
    cosine_similarity [1] [[0]] = [none]
    ∧ cosine_similarity [1] [[0]] ≠ [some 0] := by
  have h1 : dotList [(1 : ℝ)] [(1 : ℝ)] = 1 := by
    simp [dotList]
  have hq : norm2 [(1 : ℝ)] = 1 := by
    unfold norm2
    rw [h1, Real.sqrt_one]
  have h0 : dotList [(0 : ℝ)] [(0 : ℝ)] = 0 := by
    simp [dotList]
  have hd : norm2 [(0 : ℝ)] = 0 := by
    unfold norm2
    rw [h0, Real.sqrt_zero]
  have hmain : cosine_similarity [1] [[0]] = [none] := by
    unfold cosine_similarity
    rw [if_neg (by rw [hq]; exact one_ne_zero)]
    simp [npDiv, hd]
  refine ⟨hmain, ?_⟩
  rw [hmain]
  simp

/-- Claim C2 amended: a stored vector with zero norm produces a non-finite
similarity (`none`: NaN from 0/0), not 0 and not an exception; the other two
parts of the claim hold: identical (nonzero) vectors give similarity 1 and
orthogonal unit vectors give similarity 0. -/
theorem cosine_zero_norm_and_units :
    (∀ (q : List ℝ) (docs : List (List ℝ)) (i : ℕ) (d : List ℝ),
        docs[i]? = some d → norm2 d = 0 →
        (cosine_similarity q docs)[i]? = some none)
    ∧ (∀ v : List ℝ, norm2 v ≠ 0 → cosine_similarity v [v] = [some 1])
    ∧ (∀ q d : List ℝ, norm2 q = 1 → norm2 d = 1 → dotList d q = 0 →
        cosine_similarity q [d] = [some 0]) := by
  refine ⟨?_, ?_, ?_⟩
  · intro q docs i d hget hd
    unfold cosine_similarity
    by_cases hq : norm2 q = 0
    · rw [if_pos hq]
      rw [List.getElem?_map, hget]
      rfl
    · rw [if_neg hq]
      rw [List.getElem?_map, hget]
      simp only [Option.map_some']
      unfold npDiv
      rw [if_pos hd]
  · intro v hv
    unfold cosine_similarity
    rw [if_neg hv]
    simp only [List.map_cons, List.map_nil]
    have hs : norm2 v * norm2 v = dotList v v := by
      unfold norm2
      exact Real.mul_self_sqrt (dotList_self_nonneg v)
    have hdiv : dotList v (v.map (fun x => x / norm2 v)) = norm2 v := by
      rw [dotList_map_div, ← hs]
      exact mul_div_cancel_right₀ (norm2 v) hv
    rw [hdiv]
    unfold npDiv
    rw [if_neg hv, div_self hv]
  · intro q d hq1 hd1 hdq
    unfold cosine_similarity
    rw [if_neg (by rw [hq1]; exact one_ne_zero)]
    simp only [List.map_cons, List.map_nil]
    rw [dotList_map_div, hdq, zero_div]
    unfold npDiv
    rw [if_neg (by rw [hd1]; exact one_ne_zero), zero_div]

theorem cosine_zero_norm_and_units_witness :
    (cosine_similarity [1] [[0]])[0]? = some none
    ∧ cosine_similarity [3, 4] [[3, 4]] = [some 1]
    ∧ cosine_similarity [1, 0] [[0, 1]] = [some 0] :=
  ⟨cosine_zero_norm_and_units.1 [1] [[0]] 0 [0] rfl
      (by
        unfold norm2
        rw [show dotList [(0 : ℝ)] [(0 : ℝ)] = 0 by norm_num [dotList]]
        exact Real.sqrt_zero),
    cosine_zero_norm_and_units.2.1 [3, 4]
      (by
        unfold norm2
        refine ne_of_gt (Real.sqrt_pos.mpr ?_)
        norm_num [dotList]),
    cosine_zero_norm_and_units.2.2 [1, 0] [0, 1]
      (by
        unfold norm2
        rw [show dotList [(1 : ℝ), 0] [(1 : ℝ), 0] = 1 by norm_num [dotList]]
        exact Real.sqrt_one)
      (by
        unfold norm2
        rw [show dotList [(0 : ℝ), 1] [(0 : ℝ), 1] = 1 by norm_num [dotList]]
        exact Real.sqrt_one)
      (by norm_num [dotList])⟩

end MistralChatbot
